/-
Verification of the text-segmentation and retrieval pipeline of the
`charlotte` research-assistant repository.

The development shallowly embeds the two source modules the claims are
about:

* `src/utils/text_processing.py` — the sentence-preserving chunker
  (`chunk_text`, `_chunk_by_sentences`, `count_tokens`); and
* `src/services/retrieval_service.py` — search, answer generation,
  related-article lookup and topic synthesis.

Conventions used throughout:

* Python `int` token counts and sizes are modelled as `Nat` (all values
  arising in the code are non-negative; sentence-index metadata, which
  Python computes with possibly-subtractive expressions, is kept as `Int`).
* `count_tokens` first tries the external `tiktoken` library and falls
  back to `len(text) // 4` on failure; `tiktoken` is an external
  dependency outside the repository, so the model uses the in-repo
  deterministic fallback `length / 4` (the spec itself names
  "characters/4" as the sanctioned fallback approximation).
* External collaborators (embedding provider, vector index, completion
  provider) are modelled as explicit parameters: an `Except String …`
  outcome for a single provider call, or a function from prompt/vector to
  an outcome.  Provider calls are the only effects in the embedded code;
  everything else is pure.
* Python lists/dicts of chunk data become structures; a chunk stores the
  list of units (sentences or words) it was accumulated from, and its
  stored `text` is their `' '.join`, exactly as in the source.  The extra
  ghost field `n_overlap` records how many leading units were seeded from
  the previous chunk's overlap; it does not influence any computed text
  and exists so that overlap properties can be stated.
-/
import Mathlib

namespace Charlotte

/-! ## Token counting (`count_tokens`, src/utils/text_processing.py:6-13)

`count_tokens` models the repository's deterministic fallback estimate
`len(text) // 4`; the primary path delegates to the external `tiktoken`
package, which is not part of the repository. -/

def count_tokens (text : String) : Nat := text.length / 4

/-- Sum of the token counts of a list of units (the running
`current_tokens` bookkeeping of `_chunk_by_sentences`). -/
def tokSum (l : List String) : Nat := (l.map count_tokens).sum

/-! ## Sentence splitting (`re.split(r'(?<=[.!?])\s+', text)`,
src/utils/text_processing.py:54)

The regex splits the text at every maximal whitespace run that is
immediately preceded by `.`, `!` or `?`.  `sentAux` walks the character
list with the reversed accumulator of the current sentence; the `Bool`
flag is true while a separator whitespace run is being consumed. -/

def punctHead : List Char → Bool
  | [] => false
  | c :: _ => c = '.' || c = '!' || c = '?'

def listToStr (acc : List Char) : String := String.mk acc.reverse

def sentAux : List Char → List Char → Bool → List String
  | [], acc, _ => [listToStr acc]
  | c :: cs, acc, true =>
    if c.isWhitespace then sentAux cs acc true
    else sentAux cs (c :: acc) false
  | c :: cs, acc, false =>
    if c.isWhitespace && punctHead acc then listToStr acc :: sentAux cs [] true
    else sentAux cs (c :: acc) false

def splitSentences (text : String) : List String := sentAux text.data [] false

/-! ## Word splitting (Python `sentence.split()`,
src/utils/text_processing.py:67)

`str.split()` with no argument splits on whitespace runs and drops empty
pieces. -/

def wordsAux : List Char → List Char → List String
  | [], acc => if acc.isEmpty then [] else [listToStr acc]
  | c :: cs, acc =>
    if c.isWhitespace then
      if acc.isEmpty then wordsAux cs [] else listToStr acc :: wordsAux cs []
    else wordsAux cs (c :: acc)

def splitWords (s : String) : List String := wordsAux s.data []

/-! ## Chunks and the accumulator state

A chunk dict `{'text': ' '.join(units), 'chunk_index': …,
'start_sentence': …, 'end_sentence': …}` is stored with its unit list;
`Chunk.text` is the joined text exactly as the source computes it.
`n_overlap` is ghost bookkeeping: the number of leading units that were
seeded from the previous chunk's overlap (0 for a chunk that started
fresh). -/

structure Chunk where
  units : List String
  chunk_index : Nat
  start_sentence : Int
  end_sentence : Int
  n_overlap : Nat
deriving Repr, DecidableEq

def Chunk.text (c : Chunk) : String := String.intercalate " " c.units

/-- Loop state shared by the sentence loop (`current_chunk`,
`current_tokens`) and the word loop (`temp_chunk`, `temp_tokens`) of
`_chunk_by_sentences`.  `seed` is the ghost overlap-seed counter. -/
structure CState where
  chunks : List Chunk
  current : List String
  currentTokens : Nat
  seed : Nat
deriving Repr

/-! ## Overlap retention (src/utils/text_processing.py:89-100, 122-133)

Walk the just-closed chunk backwards, keeping whole units while the kept
token total stays ≤ `chunk_overlap`; the kept units are returned in
original order together with their token total. -/

def overlapAux (co : Nat) : List String → List String → Nat → List String × Nat
  | [], acc, accTok => (acc, accTok)
  | w :: ws, acc, accTok =>
    if accTok + count_tokens w ≤ co then
      overlapAux co ws (w :: acc) (accTok + count_tokens w)
    else (acc, accTok)

def keepOverlap (co : Nat) (chunk : List String) : List String × Nat :=
  overlapAux co chunk.reverse [] 0

/-! ## The greedy accumulate-and-overlap step

Both the sentence loop and the word loop perform the same step: if adding
the next unit would push the running total over `chunk_size` and the
accumulator is non-empty, close the accumulator as a chunk (metadata built
by `mk`), seed the next accumulator with the retained overlap, then append
the unit unconditionally.  The source duplicates this logic between the
two loops with different metadata; `mk` abstracts only that metadata. -/

def greedyStep (cs co : Nat) (mk : CState → Chunk) (st : CState) (u : String) : CState :=
  if cs < st.currentTokens + count_tokens u ∧ st.current ≠ [] then
    { chunks := st.chunks ++ [mk st],
      current := (keepOverlap co st.current).1 ++ [u],
      currentTokens := (keepOverlap co st.current).2 + count_tokens u,
      seed := (keepOverlap co st.current).1.length }
  else
    { st with
      current := st.current ++ [u],
      currentTokens := st.currentTokens + count_tokens u }

/-- Close the pending accumulator as a final chunk if it is non-empty
(the `if current_chunk:` flushes of the source). -/
def flushWith (mk : CState → Chunk) (st : CState) : List Chunk :=
  if st.current ≠ [] then st.chunks ++ [mk st] else st.chunks

/-- Chunk metadata used by the word loop: `start_sentence` and
`end_sentence` are both the index `i` of the oversize sentence being
split (src/utils/text_processing.py:81-86, 102-107). -/
def wordMk (i : Int) (st : CState) : Chunk :=
  ⟨st.current, st.chunks.length, i, i, st.seed⟩

/-- Chunk metadata used by the sentence loop:
`start_sentence = i - len(current_chunk)`, `end_sentence = i - 1`
(src/utils/text_processing.py:64-69, 116-121). -/
def sentMk (i : Int) (st : CState) : Chunk :=
  ⟨st.current, st.chunks.length, i - (st.current.length : Int), i - 1, st.seed⟩

/-- The word loop (src/utils/text_processing.py:73-100) that splits an
oversize sentence at word boundaries with the same greedy window. -/
def wordLoop (cs co : Nat) (i : Int) : CState → List String → CState
  | st, [] => st
  | st, w :: ws => wordLoop cs co i (greedyStep cs co (wordMk i) st w) ws

/-- Run the word-splitting branch for the oversize sentence at index `i`:
start from an empty accumulator, process all words, and flush any
remaining words as a final forced chunk
(src/utils/text_processing.py:73-107). -/
def runWords (cs co : Nat) (i : Int) (chunks : List Chunk) (s : String) : List Chunk :=
  let st := wordLoop cs co i ⟨chunks, [], 0, 0⟩ (splitWords s)
  flushWith (wordMk i) st

/-- One iteration of the sentence loop
(src/utils/text_processing.py:59-139): an oversize sentence flushes the
pending accumulator and is re-split by words; otherwise the greedy
accumulate-and-overlap step runs on the sentence. -/
def sentStep (cs co : Nat) (i : Int) (st : CState) (s : String) : CState :=
  if cs < count_tokens s then
    let chunks₁ := flushWith (sentMk i) st
    ⟨runWords cs co i chunks₁ s, [], 0, 0⟩
  else
    greedyStep cs co (sentMk i) st s

def sentLoop (cs co : Nat) : Int → CState → List String → CState
  | _, st, [] => st
  | i, st, s :: ss => sentLoop cs co (i + 1) (sentStep cs co i st s) ss

/-- `_chunk_by_sentences(text, chunk_size, chunk_overlap)`
(src/utils/text_processing.py:51-150). -/
def chunk_by_sentences (text : String) (cs co : Nat) : List Chunk :=
  let sentences := splitSentences text
  let st := sentLoop cs co 0 ⟨[], [], 0, 0⟩ sentences
  flushWith
    (fun st => ⟨st.current, st.chunks.length,
      (sentences.length : Int) - (st.current.length : Int),
      (sentences.length : Int) - 1, st.seed⟩) st

/-- `chunk_text(text, chunk_size, chunk_overlap)` with the default
`preserve_sentences=True`, which dispatches to `_chunk_by_sentences`
(src/utils/text_processing.py:28-49).  The `preserve_sentences=False`
branch (`_chunk_by_tokens`) is not exercised by any claim: the spec's
Chunker contract is the sentence-preserving algorithm. -/
def chunk_text (text : String) (chunk_size chunk_overlap : Nat) : List Chunk :=
  chunk_by_sentences text chunk_size chunk_overlap

/-! ## Bookkeeping lemmas for the chunker -/

@[simp] lemma tokSum_nil : tokSum [] = 0 := rfl

@[simp] lemma tokSum_cons (u : String) (l : List String) :
    tokSum (u :: l) = count_tokens u + tokSum l := by simp [tokSum]

@[simp] lemma tokSum_append (l₁ l₂ : List String) :
    tokSum (l₁ ++ l₂) = tokSum l₁ + tokSum l₂ := by simp [tokSum]

lemma overlapAux_spec (co : Nat) :
    ∀ (ws acc : List String) (t : Nat), t = tokSum acc → t ≤ co →
      (overlapAux co ws acc t).2 = tokSum (overlapAux co ws acc t).1 ∧
      (overlapAux co ws acc t).2 ≤ co ∧
      ∃ k, (overlapAux co ws acc t).1 = (ws.take k).reverse ++ acc
  | [], _, _, ht, hle => ⟨ht, hle, 0, by simp [overlapAux]⟩
  | w :: ws, acc, t, ht, hle => by
    simp only [overlapAux]
    split
    · next h =>
      obtain ⟨h1, h2, k, h3⟩ := overlapAux_spec co ws (w :: acc) (t + count_tokens w)
        (by simp [ht, Nat.add_comm]) h
      exact ⟨h1, h2, k + 1, by simpa using h3⟩
    · exact ⟨ht, hle, 0, by simp⟩

lemma keepOverlap_spec (co : Nat) (l : List String) :
    (keepOverlap co l).2 = tokSum (keepOverlap co l).1 ∧
    (keepOverlap co l).2 ≤ co ∧ (keepOverlap co l).1 <:+ l := by
  obtain ⟨h1, h2, k, h3⟩ := overlapAux_spec co l.reverse [] 0 rfl (Nat.zero_le _)
  refine ⟨h1, h2, ?_⟩
  unfold keepOverlap at *
  rw [h3, List.append_nil]
  have h4 : l.reverse.take k <+: l.reverse := List.take_prefix _ _
  have h5 := List.reverse_suffix.mpr h4
  rwa [List.reverse_reverse] at h5

/-- The bound every chunk of `_chunk_by_sentences` satisfies: the sum of
the token counts of its units is at most `chunk_size + chunk_overlap`,
unless the chunk contains a single forced-oversize unit. -/
def GoodChunk (cs co : Nat) (c : Chunk) : Prop :=
  tokSum c.units ≤ cs + co ∨ ∃ u ∈ c.units, cs < count_tokens u

/-- The relation between two consecutive chunks: the leading units of the
later chunk that were seeded from the overlap (its first `n_overlap`
units) form a suffix of the earlier chunk, and their token total is at
most `chunk_overlap`. -/
def SeedRel (co : Nat) (c₁ c₂ : Chunk) : Prop :=
  c₂.units.take c₂.n_overlap <:+ c₁.units ∧ tokSum (c₂.units.take c₂.n_overlap) ≤ co

/-- Loop invariant of both greedy accumulation loops. -/
structure Inv (cs co : Nat) (st : CState) : Prop where
  tok_eq : st.currentTokens = tokSum st.current
  good : tokSum st.current ≤ cs + co ∨ ∃ u ∈ st.current, cs < count_tokens u
  chunks_good : ∀ c ∈ st.chunks, GoodChunk cs co c
  chain : List.Chain' (SeedRel co) st.chunks
  seed_le : st.seed ≤ st.current.length
  seed_tok : tokSum (st.current.take st.seed) ≤ co
  seed_suffix : ∀ cl ∈ st.chunks.getLast?, st.current.take st.seed <:+ cl.units

lemma init_inv {cs co : Nat} {chunks : List Chunk}
    (h1 : ∀ c ∈ chunks, GoodChunk cs co c) (h2 : List.Chain' (SeedRel co) chunks) :
    Inv cs co ⟨chunks, [], 0, 0⟩ where
  tok_eq := rfl
  good := Or.inl (Nat.zero_le _)
  chunks_good := h1
  chain := h2
  seed_le := Nat.le_refl _
  seed_tok := Nat.zero_le _
  seed_suffix := fun _ _ => List.nil_suffix

lemma greedyStep_inv {cs co : Nat} {mk : CState → Chunk}
    (hmk_units : ∀ st, (mk st).units = st.current)
    (hmk_seed : ∀ st, (mk st).n_overlap = st.seed)
    {st : CState} (u : String) (h : Inv cs co st) :
    Inv cs co (greedyStep cs co mk st u) := by
  unfold greedyStep
  by_cases hc : cs < st.currentTokens + count_tokens u ∧ st.current ≠ []
  · rw [if_pos hc]
    obtain ⟨hov_tok, hov_le, hov_suf⟩ := keepOverlap_spec co st.current
    constructor
    · show (keepOverlap co st.current).2 + count_tokens u
        = tokSum ((keepOverlap co st.current).1 ++ [u])
      rw [tokSum_append, ← hov_tok, tokSum_cons, tokSum_nil]
      omega
    · show tokSum ((keepOverlap co st.current).1 ++ [u]) ≤ cs + co ∨ _
      by_cases hcs : count_tokens u ≤ cs
      · refine Or.inl ?_
        have : tokSum (keepOverlap co st.current).1 ≤ co := hov_tok ▸ hov_le
        calc tokSum ((keepOverlap co st.current).1 ++ [u])
            = tokSum (keepOverlap co st.current).1 + count_tokens u := by simp [tokSum]
          _ ≤ co + cs := Nat.add_le_add this hcs
          _ = cs + co := Nat.add_comm _ _
      · exact Or.inr ⟨u, by simp, Nat.lt_of_not_le hcs⟩
    · intro c hcmem
      rcases List.mem_append.mp hcmem with h1 | h1
      · exact h.chunks_good c h1
      · have heq : c = mk st := by simpa using h1
        subst heq
        show tokSum (mk st).units ≤ cs + co ∨ _
        rw [hmk_units]
        exact h.good
    · rw [List.chain'_append]
      refine ⟨h.chain, List.chain'_singleton _, ?_⟩
      intro x hx y hy
      have hy' : mk st = y := by simpa using hy
      subst hy'
      constructor
      · rw [hmk_units, hmk_seed]
        exact h.seed_suffix x hx
      · rw [hmk_units, hmk_seed]
        exact h.seed_tok
    · show (keepOverlap co st.current).1.length ≤ _
      simp
    · show tokSum (((keepOverlap co st.current).1 ++ [u]).take (keepOverlap co st.current).1.length) ≤ co
      rw [List.take_left]
      exact hov_tok ▸ hov_le
    · intro cl hcl
      rw [List.getLast?_concat] at hcl
      have hcl' : mk st = cl := by simpa using hcl
      subst hcl'
      show ((keepOverlap co st.current).1 ++ [u]).take (keepOverlap co st.current).1.length <:+ _
      rw [List.take_left, hmk_units]
      exact hov_suf
  · rw [if_neg hc]
    rcases Classical.em (st.current = []) with hnil | hnil
    · constructor
      · show st.currentTokens + count_tokens u = tokSum (st.current ++ [u])
        rw [tokSum_append, h.tok_eq, tokSum_cons, tokSum_nil]
        omega
      · rw [hnil]
        by_cases hcs : count_tokens u ≤ cs
        · exact Or.inl (by simpa [tokSum] using Nat.le_add_right_of_le hcs)
        · exact Or.inr ⟨u, by simp, Nat.lt_of_not_le hcs⟩
      · exact h.chunks_good
      · exact h.chain
      · exact h.seed_le.trans (by simp)
      · rw [List.take_append_of_le_length h.seed_le]
        exact h.seed_tok
      · intro cl hcl
        rw [List.take_append_of_le_length h.seed_le]
        exact h.seed_suffix cl hcl
    · have hle : st.currentTokens + count_tokens u ≤ cs := by
        rcases Classical.em (cs < st.currentTokens + count_tokens u) with h1 | h1
        · exact absurd ⟨h1, hnil⟩ hc
        · exact Nat.le_of_not_lt h1
      constructor
      · show st.currentTokens + count_tokens u = tokSum (st.current ++ [u])
        rw [tokSum_append, h.tok_eq, tokSum_cons, tokSum_nil]
        omega
      · refine Or.inl ?_
        have : tokSum (st.current ++ [u]) = st.currentTokens + count_tokens u := by
          simp [h.tok_eq, tokSum]
        rw [this]
        exact hle.trans (Nat.le_add_right _ _)
      · exact h.chunks_good
      · exact h.chain
      · exact h.seed_le.trans (by simp)
      · rw [List.take_append_of_le_length h.seed_le]
        exact h.seed_tok
      · intro cl hcl
        rw [List.take_append_of_le_length h.seed_le]
        exact h.seed_suffix cl hcl

lemma flushWith_out {cs co : Nat} {mk : CState → Chunk}
    (hmk_units : ∀ st, (mk st).units = st.current)
    (hmk_seed : ∀ st, (mk st).n_overlap = st.seed)
    {st : CState} (h : Inv cs co st) :
    (∀ c ∈ flushWith mk st, GoodChunk cs co c) ∧
    List.Chain' (SeedRel co) (flushWith mk st) := by
  unfold flushWith
  split
  · constructor
    · intro c hcmem
      rcases List.mem_append.mp hcmem with h1 | h1
      · exact h.chunks_good c h1
      · have heq : c = mk st := by simpa using h1
        subst heq
        show tokSum (mk st).units ≤ cs + co ∨ _
        rw [hmk_units]
        exact h.good
    · rw [List.chain'_append]
      refine ⟨h.chain, List.chain'_singleton _, ?_⟩
      intro x hx y hy
      have hy' : mk st = y := by simpa using hy
      subst hy'
      exact ⟨by rw [hmk_units, hmk_seed]; exact h.seed_suffix x hx,
             by rw [hmk_units, hmk_seed]; exact h.seed_tok⟩
  · exact ⟨h.chunks_good, h.chain⟩

lemma wordLoop_inv {cs co : Nat} {i : Int} :
    ∀ (ws : List String) {st : CState}, Inv cs co st → Inv cs co (wordLoop cs co i st ws)
  | [], _, h => h
  | _ :: ws, _, h =>
    wordLoop_inv ws (greedyStep_inv (fun _ => rfl) (fun _ => rfl) _ h)

lemma runWords_out {cs co : Nat} {i : Int} {chunks : List Chunk} {s : String}
    (h1 : ∀ c ∈ chunks, GoodChunk cs co c) (h2 : List.Chain' (SeedRel co) chunks) :
    (∀ c ∈ runWords cs co i chunks s, GoodChunk cs co c) ∧
    List.Chain' (SeedRel co) (runWords cs co i chunks s) :=
  flushWith_out (fun _ => rfl) (fun _ => rfl) (wordLoop_inv _ (init_inv h1 h2))

lemma sentStep_inv {cs co : Nat} {i : Int} {st : CState} (s : String) (h : Inv cs co st) :
    Inv cs co (sentStep cs co i st s) := by
  unfold sentStep
  split
  · have hf := @flushWith_out cs co (sentMk i) (fun _ => rfl) (fun _ => rfl) st h
    have hr := @runWords_out cs co i (flushWith (sentMk i) st) s hf.1 hf.2
    exact init_inv hr.1 hr.2
  · exact greedyStep_inv (fun _ => rfl) (fun _ => rfl) s h

lemma sentLoop_inv {cs co : Nat} :
    ∀ (ss : List String) {i : Int} {st : CState}, Inv cs co st →
      Inv cs co (sentLoop cs co i st ss)
  | [], _, _, h => h
  | s :: ss, _, _, h => sentLoop_inv ss (sentStep_inv s h)

/-- Every chunk produced by `_chunk_by_sentences` satisfies the token
bound (or contains a forced-oversize unit), and consecutive chunks are
linked by the overlap-seed relation. -/
lemma chunk_text_out (text : String) (cs co : Nat) :
    (∀ c ∈ chunk_text text cs co, GoodChunk cs co c) ∧
    List.Chain' (SeedRel co) (chunk_text text cs co) := by
  unfold chunk_text chunk_by_sentences
  exact flushWith_out (fun _ => rfl) (fun _ => rfl)
    (sentLoop_inv _ (init_inv (by simp) List.chain'_nil))

/-! ## Data model of the retrieval layer (src/models/article.py)

`SearchResult` keeps the fields the retrieval code reads.  Scores are
Python floats used only through comparisons and ordering; they are
modelled as `Int`.  The provider `metadata` dict is never consulted by the
retrieval logic under verification and is omitted.  `Article` keeps the
fields `find_related_articles` reads. -/

structure SearchResult where
  article_id : String
  article_title : String
  article_url : String
  chunk_text : String
  score : Int
deriving Repr, DecidableEq

structure Article where
  id : String
  title : String
  summary : Option String
deriving Repr, DecidableEq

/-- `QueryResponse` (src/models/article.py): the generation `timestamp`
(a wall-clock default) is not modelled. -/
structure QueryResponse where
  answer : String
  sources : List SearchResult
  query : String
deriving Repr, DecidableEq

/-! ## `RetrievalService.search_articles` (src/services/retrieval_service.py:13-34)

The embedding-provider call `embedding_service.generate_embedding(query)`
either yields a vector or raises; its outcome is the `embedding`
parameter.  The subsequent `database_service.query_pinecone` call is
modelled as the function `query_index` (it catches its own provider
errors and returns a list in all cases,
src/services/database_service.py:164-194).  The `try/except` of
`search_articles` turns any raised error into an empty result list. -/

def search_articles (embedding : Except String (List Int))
    (query_index : List Int → List SearchResult) : List SearchResult :=
  match embedding with
  | .ok v => query_index v
  | .error _ => []

/-! ## `RetrievalService.generate_answer` (src/services/retrieval_service.py:36-71)

The prompt is assembled exactly as the Python f-strings do (including the
source's spelling); the single completion-provider call is the `complete`
parameter mapping the prompt to an outcome.  The `try/except` converts a
provider failure into the apologetic error string. -/

def answer_context (context_results : List SearchResult) : String :=
  String.intercalate "\n"
    (context_results.enum.map (fun p =>
      "[Source " ++ toString (p.1 + 1) ++ ": " ++ p.2.article_title ++ "]\n"
        ++ p.2.chunk_text ++ "\n"))

def answer_prompt (question : String) (context_results : List SearchResult) : String :=
  "You are a helpful research assistant. Answer the user's question based on the provided context from their saved articles.\n            Use only the invormation from the provided context. \n            If the context doesn't contain enough information to answer fully, request more context. \n            Cite sources by mentioning the article titles.\n            Be concise but thorough.\n            If multiple sources say different things, mention both perspectives.\n            Context from saved articles: "
    ++ answer_context context_results
    ++ "\n            Question: " ++ question ++ "\n            Answer:"

def generate_answer (question : String) (context_results : List SearchResult)
    (complete : String → Except String String) : String :=
  match complete (answer_prompt question context_results) with
  | .ok answer => answer.trim
  | .error e => "I'm sorry, but I encountered an error generating an answer: " ++ e

/-! ## `RetrievalService.answer_question` (src/services/retrieval_service.py:73-103)

`results` is the outcome of `search_articles(question, top_k)` (which
never raises).  `generate_answer` never raises either, so the outer
`try/except` of `answer_question` is unreachable and has no counterpart
in the model. -/

def answer_question (question : String) (results : List SearchResult)
    (complete : String → Except String String) : QueryResponse :=
  if results = [] then
    { answer := "I couldn't find any relevant information in your saved articles to answer this question. Try addming more articles on this topic",
      sources := [], query := question }
  else
    { answer := generate_answer question results complete,
      sources := results, query := question }

/-! ## `RetrievalService.find_related_articles` (src/services/retrieval_service.py:105-134)

The synthetic query `f"{article.title} {article.summary or ''}"` is built
by `related_query`; the `search_articles(query, top_k * 2)` call is
external, and its result list is the `results` parameter.  The `seen_ids`
set is modelled as a list of ids; the loop appends a first-seen result
and stops as soon as the kept list has reached `top_k` entries — note the
length test runs after the append. -/

def related_query (a : Article) : String := a.title ++ " " ++ a.summary.getD ""

def dedupTake (top_k : Nat) : List SearchResult → List String → List SearchResult → List SearchResult
  | [], _, acc => acc
  | r :: rest, seen, acc =>
    if r.article_id ∈ seen then dedupTake top_k rest seen acc
    else if top_k ≤ (acc ++ [r]).length then acc ++ [r]
    else dedupTake top_k rest (r.article_id :: seen) (acc ++ [r])

def find_related_articles (article : Option Article) (results : List SearchResult)
    (article_id : String) (top_k : Nat) : List SearchResult :=
  match article with
  | none => []
  | some _ =>
    let related := results.filter (fun r => r.article_id ≠ article_id)
    dedupTake top_k related [] []

/-! ## Properties of the dedup-and-truncate loop of `find_related_articles` -/

lemma dedupTake_subset (tk : Nat) :
    ∀ (rel : List SearchResult) (seen : List String) (acc : List SearchResult),
      ∀ r ∈ dedupTake tk rel seen acc, r ∈ acc ∨ r ∈ rel
  | [], _, _, _, hr => Or.inl hr
  | x :: rest, seen, acc, r, hr => by
    unfold dedupTake at hr
    split at hr
    · rcases dedupTake_subset tk rest seen acc r hr with h | h
      · exact Or.inl h
      · exact Or.inr (List.mem_cons_of_mem _ h)
    · split at hr
      · rcases List.mem_append.mp hr with h | h
        · exact Or.inl h
        · exact Or.inr (by simp at h; simp [h])
      · rcases dedupTake_subset tk rest _ _ r hr with h | h
        · rcases List.mem_append.mp h with h1 | h1
          · exact Or.inl h1
          · exact Or.inr (by simp at h1; simp [h1])
        · exact Or.inr (List.mem_cons_of_mem _ h)

lemma dedupTake_nodup (tk : Nat) :
    ∀ (rel : List SearchResult) (seen : List String) (acc : List SearchResult),
      (∀ a ∈ acc, a.article_id ∈ seen) →
      acc.Pairwise (fun a b => a.article_id ≠ b.article_id) →
      (dedupTake tk rel seen acc).Pairwise (fun a b => a.article_id ≠ b.article_id)
  | [], _, _, _, hacc => hacc
  | x :: rest, seen, acc, hseen, hacc => by
    unfold dedupTake
    split
    · exact dedupTake_nodup tk rest seen acc hseen hacc
    · next hx =>
      have hpair : (acc ++ [x]).Pairwise (fun a b => a.article_id ≠ b.article_id) := by
        rw [List.pairwise_append]
        refine ⟨hacc, List.pairwise_singleton _ _, ?_⟩
        intro a ha b hb
        have hb' : b = x := by simpa using hb
        subst hb'
        intro hcontra
        exact hx (hcontra ▸ hseen a ha)
      split
      · exact hpair
      · refine dedupTake_nodup tk rest _ _ ?_ hpair
        intro a ha
        rcases List.mem_append.mp ha with h | h
        · exact List.mem_cons_of_mem _ (hseen a h)
        · have h' : a = x := by simpa using h
          subst h'
          exact List.mem_cons_self _ _

lemma dedupTake_length_zero :
    ∀ (rel : List SearchResult) (seen : List String),
      (dedupTake 0 rel seen []).length ≤ 1
  | [], _ => by simp [dedupTake]
  | x :: rest, seen => by
    unfold dedupTake
    split
    · exact dedupTake_length_zero rest seen
    · rw [if_pos (by simp)]
      simp

lemma dedupTake_length_pos (tk : Nat) :
    ∀ (rel : List SearchResult) (seen : List String) (acc : List SearchResult),
      acc.length < tk → (dedupTake tk rel seen acc).length ≤ tk
  | [], _, _, h => by
    unfold dedupTake
    exact Nat.le_of_lt h
  | x :: rest, seen, acc, h => by
    unfold dedupTake
    split
    · exact dedupTake_length_pos tk rest seen acc h
    · split
      · simp only [List.length_append, List.length_singleton]
        omega
      · next hlen =>
        refine dedupTake_length_pos tk rest _ _ ?_
        exact Nat.lt_of_not_le hlen

lemma dedupTake_max (tk : Nat) :
    ∀ (rel : List SearchResult) (seen : List String) (acc : List SearchResult),
      rel.Pairwise (fun a b => b.score ≤ a.score) →
      (∀ a ∈ acc, ∀ q ∈ rel, q.article_id = a.article_id → q.score ≤ a.score) →
      ∀ r ∈ dedupTake tk rel seen acc,
        (r ∈ acc ∨ (r ∈ rel ∧ r.article_id ∉ seen)) ∧
        ∀ q ∈ rel, q.article_id = r.article_id → q.score ≤ r.score
  | [], _, _, _, _, r, hr => ⟨Or.inl hr, fun q hq => absurd hq (List.not_mem_nil q)⟩
  | x :: rest, seen, acc, hsorted, hacc, r, hr => by
    have hx_rest : ∀ q ∈ rest, q.score ≤ x.score := (List.pairwise_cons.mp hsorted).1
    have hsorted' : rest.Pairwise (fun a b => b.score ≤ a.score) :=
      (List.pairwise_cons.mp hsorted).2
    unfold dedupTake at hr
    split at hr
    · next hxseen =>
      have hacc' : ∀ a ∈ acc, ∀ q ∈ rest, q.article_id = a.article_id → q.score ≤ a.score :=
        fun a ha q hq => hacc a ha q (List.mem_cons_of_mem _ hq)
      obtain ⟨hmem, hsc⟩ := dedupTake_max tk rest seen acc hsorted' hacc' r hr
      refine ⟨?_, ?_⟩
      · rcases hmem with h | ⟨h1, h2⟩
        · exact Or.inl h
        · exact Or.inr ⟨List.mem_cons_of_mem _ h1, h2⟩
      · intro q hq hid
        rcases List.mem_cons.mp hq with h | h
        · subst h
          rcases hmem with hA | ⟨_, hB⟩
          · exact hacc r hA q (List.mem_cons_self _ _) hid
          · exact absurd (hid ▸ hxseen) hB
        · rcases hmem with hA | hA
          · exact hacc r hA q (List.mem_cons_of_mem _ h) hid
          · exact hsc q h hid
    · next hxseen =>
      split at hr
      · rcases List.mem_append.mp hr with h | h
        · refine ⟨Or.inl h, fun q hq hid => hacc r h q hq hid⟩
        · have h' : r = x := by simpa using h
          subst h'
          refine ⟨Or.inr ⟨List.mem_cons_self _ _, hxseen⟩, ?_⟩
          intro q hq _
          rcases List.mem_cons.mp hq with h1 | h1
          · exact h1 ▸ Int.le_refl _
          · exact hx_rest q h1
      · have hacc' : ∀ a ∈ acc ++ [x], ∀ q ∈ rest,
            q.article_id = a.article_id → q.score ≤ a.score := by
          intro a ha q hq hid
          rcases List.mem_append.mp ha with h | h
          · exact hacc a h q (List.mem_cons_of_mem _ hq) hid
          · have h' : a = x := by simpa using h
            subst h'
            exact hx_rest q hq
        obtain ⟨hmem, hsc⟩ := dedupTake_max tk rest (x.article_id :: seen) (acc ++ [x])
          hsorted' hacc' r hr
        refine ⟨?_, ?_⟩
        · rcases hmem with h | ⟨h1, h2⟩
          · rcases List.mem_append.mp h with hA | hA
            · exact Or.inl hA
            · have h' : r = x := by simpa using hA
              subst h'
              exact Or.inr ⟨List.mem_cons_self _ _, hxseen⟩
          · refine Or.inr ⟨List.mem_cons_of_mem _ h1, ?_⟩
            intro hcontra
            exact h2 (List.mem_cons_of_mem _ hcontra)
        · intro q hq hid
          rcases List.mem_cons.mp hq with h | h
          · rcases hmem with hA | ⟨h1, h2⟩
            · rcases List.mem_append.mp hA with hB | hB
              · exact hacc r hB q hq hid
              · have h' : r = x := by simpa using hB
                simp [h, h']
            · exact absurd (by simp [← hid, h]) h2
          · exact hsc q h hid

/-! ## `RetrievalService.synthesize_topic` (src/services/retrieval_service.py:136-184)

`results` is the outcome of `search_articles(topic, max_articles)`.  The
insertion-ordered `articles_content` dict becomes an association list of
`TopicGroup`s; chunks of an already-seen article are appended to its
group, and the title/url of the first-seen chunk are kept. -/

structure TopicGroup where
  article_id : String
  title : String
  url : String
  chunks : List String
deriving Repr, DecidableEq

def addResult (acc : List TopicGroup) (r : SearchResult) : List TopicGroup :=
  if acc.any (fun g => g.article_id = r.article_id) then
    acc.map (fun g =>
      if g.article_id = r.article_id then { g with chunks := g.chunks ++ [r.chunk_text] }
      else g)
  else acc ++ [⟨r.article_id, r.article_title, r.article_url, [r.chunk_text]⟩]

def groupByArticle (results : List SearchResult) : List TopicGroup :=
  results.foldl addResult []

def topic_context (results : List SearchResult) : String :=
  String.intercalate "\n"
    ((groupByArticle results).map (fun g =>
      "From: " ++ g.title ++ "\n" ++ String.intercalate " " g.chunks ++ "\n"))

def topic_prompt (topic : String) (results : List SearchResult) : String :=
  "Based on the following articles from the user's research library, provide a comprehensive synthesis about: "
    ++ topic
    ++ " using the following instructions:\n            - Idnetify common themese and key points across articles\n            -Note any disagreements or different perspectives\n            -Organize the information cohernently\n            -Cite which articles support each point\n\n            Articles: "
    ++ topic_context results ++ "\n            Synthesis:"

def synthesize_topic (topic : String) (results : List SearchResult)
    (complete : String → Except String String) : String :=
  if results = [] then "No articles found on this topic."
  else
    match complete (topic_prompt topic results) with
    | .ok synthesis => synthesis.trim
    | .error e => "Error generating synthesis: " ++ e

/-! # The claims -/

/-- Three sentences of 24 characters (6 fallback tokens) each. -/
def exC1 : String :=
  "aaaaaaaaaaaaaaaaaaaaaaa. aaaaaaaaaaaaaaaaaaaaaaa. aaaaaaaaaaaaaaaaaaaaaaa."

/-- C1, counterexample: with the valid configuration `maxTokens = 10`,
`overlapTokens = 9`, chunking three 6-token sentences produces a segment
of 12 tokens (both as the sum of its unit counts and as the token count
of its stored text), although none of its units alone exceeds 10: the
overlap re-seeding appends the next sentence without re-checking the
limit.  This refutes the claim that every non-forced-oversize segment
stays within `maxTokens`. -/
theorem chunk_token_bound_cex :
    ¬ (∀ c ∈ chunk_text exC1 10 9,
        count_tokens c.text ≤ 10 ∨ ∃ u ∈ c.units, 10 < count_tokens u) := by
  decide

/-- C1, amended: for every text and valid configuration, every segment
satisfies the weaker bound `tokSum units ≤ maxTokens + overlapTokens`
(the running token total tracked by the code), unless the segment
contains a single forced-oversize unit whose own token count exceeds
`maxTokens`. -/
theorem chunk_token_bound (text : String) (cs co : Nat)
    (hcs : 0 < cs) (hco : co < cs) :
    ∀ c ∈ chunk_text text cs co,
      tokSum c.units ≤ cs + co ∨ ∃ u ∈ c.units, cs < count_tokens u :=
  fun c hc => (chunk_text_out text cs co).1 c hc

/-- C1, witness: the amended bound evaluated on a one-sentence text. -/
theorem chunk_token_bound_w :
    tokSum (Chunk.mk ["Hi."] 0 0 0 0).units ≤ 10 + 2 ∨
    ∃ u ∈ (Chunk.mk ["Hi."] 0 0 0 0).units, 10 < count_tokens u :=
  chunk_token_bound "Hi." 10 2 (by decide) (by decide)
    (Chunk.mk ["Hi."] 0 0 0 0) (by decide)

/-- C2, counterexample: `chunk_text` contains no configuration check.
With the invalid configuration `maxTokens = 0` it does not fail; it
returns a two-segment sequence (the code has no raise path at all, so
the model is a total function into segment lists). -/
theorem chunk_no_validation_cex :
    chunk_text "Hello world." 0 0 ≠ [] ∧
    (chunk_text "Hello world." 0 0).length = 2 := by
  decide

/-- C2, amended: `chunk_text` performs no validation of
`maxTokens`/`overlapTokens` and never raises; a call with the invalid
configuration `maxTokens = 0, overlapTokens = 0` still runs the word
branch and returns segments, here exactly two single-word segments. -/
theorem chunk_invalid_config_returns_segments :
    chunk_text "Hello world." 0 0 =
      [Chunk.mk ["Hello"] 0 0 0 0, Chunk.mk ["world."] 1 0 0 0] := by
  decide

/-- Three distinct sentences of 24 characters (6 fallback tokens) each. -/
def exC3 : String :=
  "aaaaaaaaaaaaaaaaaaaaaaa. bbbbbbbbbbbbbbbbbbbbbbb. ccccccccccccccccccccccc."

/-- C3, counterexample: with `overlapTokens = 1 > 0` and three 6-token
sentences under `maxTokens = 10`, three segments are produced and no
consecutive pair shares any content (the trailing sentence alone already
exceeds `overlapTokens`, so the retained overlap is empty), refuting the
claim that consecutive segments overlap by strictly more than 0 tokens.
The produced unit lists are pairwise-disjoint singletons, and every
overlap seed is empty. -/
theorem chunk_overlap_pos_cex :
    (chunk_text exC3 10 1).map Chunk.units =
      [["aaaaaaaaaaaaaaaaaaaaaaa."], ["bbbbbbbbbbbbbbbbbbbbbbb."],
        ["ccccccccccccccccccccccc."]] ∧
    ∀ c ∈ chunk_text exC3 10 1, tokSum (c.units.take c.n_overlap) = 0 := by
  decide

/-- C3, amended: for every text and valid configuration with
`overlapTokens > 0`, each consecutive pair of segments is linked by the
overlap seed: the leading `n_overlap` units of the later segment are a
suffix of the earlier segment and their token total is at most
`overlapTokens` — but it may be zero. -/
theorem chunk_overlap_bound (text : String) (cs co : Nat)
    (hcs : 0 < cs) (hpos : 0 < co) (hco : co < cs) :
    List.Chain'
      (fun c₁ c₂ => c₂.units.take c₂.n_overlap <:+ c₁.units ∧
        tokSum (c₂.units.take c₂.n_overlap) ≤ co)
      (chunk_text text cs co) :=
  (chunk_text_out text cs co).2

/-- C3, witness: the amended overlap link evaluated on a two-segment
run. -/
theorem chunk_overlap_bound_w :
    List.Chain'
      (fun c₁ c₂ => c₂.units.take c₂.n_overlap <:+ c₁.units ∧
        tokSum (c₂.units.take c₂.n_overlap) ≤ 9)
      (chunk_text exC1 10 9) :=
  chunk_overlap_bound exC1 10 9 (by decide) (by decide) (by decide)

/-- C4, counterexample: chunking the empty text with the default valid
configuration does not return an empty segment sequence — the sentence
splitter yields `[""]` and the final flush emits one segment with empty
text. -/
theorem chunk_empty_text_cex : chunk_text "" 600 100 ≠ [] := by
  decide

/-- C4, amended: for every valid configuration, chunking the empty text
returns exactly one segment whose text is empty (and no error is
raised). -/
theorem chunk_empty_text_single_segment (cs co : Nat)
    (hcs : 0 < cs) (hco : co < cs) :
    chunk_text "" cs co = [Chunk.mk [""] 0 0 0 0] := by
  simp [chunk_text, chunk_by_sentences, splitSentences, sentAux, listToStr,
    sentLoop, sentStep, count_tokens, greedyStep, flushWith]

/-- C4, witness: the amended statement evaluated at the default
configuration. -/
theorem chunk_empty_text_single_segment_w :
    chunk_text "" 600 100 = [Chunk.mk [""] 0 0 0 0] :=
  chunk_empty_text_single_segment 600 100 (by decide) (by decide)

/-- C5, counterexample: when the embedding provider fails,
`search_articles` does not surface the error to the caller — the broad
`except` returns the empty result list, even though the index holds
matches. -/
theorem search_embed_error_cex :
    search_articles (Except.error "embedding provider unavailable")
      (fun _ => [SearchResult.mk "a1" "Title" "http://t" "chunk" 9]) = [] := rfl

/-- C5, amended: for every provider error and every index,
`search_articles` catches the failure and degrades to an empty result
list instead of raising. -/
theorem search_embed_error_empty (e : String)
    (query_index : List Int → List SearchResult) :
    search_articles (Except.error e) query_index = [] := rfl

/-- C6, counterexample: with `topK = 0` the dedup loop still returns one
item, because the `len(unique_related) >= top_k` check runs only after an
append; this refutes the unconditional `length ≤ topK` bound. -/
theorem find_related_topk_zero_cex :
    ¬ ((find_related_articles (some (Article.mk "a1" "T" none))
        [SearchResult.mk "a2" "t" "u" "c" 5] "a1" 0).length ≤ 0) := by
  decide

/-- C6, amended: assuming the candidate list is sorted by non-increasing
score (the vector-index contract), `find_related_articles` never returns
the source document, never returns two items with the same document id,
returns at most `max topK 1` items (one more than `topK` when
`topK = 0`), and each kept item has the maximal score among same-id
candidates. -/
theorem find_related_props (art : Article) (results : List SearchResult)
    (article_id : String) (top_k : Nat)
    (hsorted : results.Pairwise (fun a b => b.score ≤ a.score)) :
    (∀ r ∈ find_related_articles (some art) results article_id top_k,
        r.article_id ≠ article_id) ∧
    (find_related_articles (some art) results article_id top_k).Pairwise
      (fun a b => a.article_id ≠ b.article_id) ∧
    (find_related_articles (some art) results article_id top_k).length ≤ max top_k 1 ∧
    (∀ r ∈ find_related_articles (some art) results article_id top_k,
      ∀ q ∈ results, q.article_id = r.article_id → q.score ≤ r.score) := by
  have hout : find_related_articles (some art) results article_id top_k
      = dedupTake top_k (results.filter (fun r => r.article_id ≠ article_id)) [] [] := rfl
  have hrel_sorted :
      (results.filter (fun r => r.article_id ≠ article_id)).Pairwise
        (fun a b => b.score ≤ a.score) :=
    List.Pairwise.sublist (List.filter_sublist results) hsorted
  have hself : ∀ r ∈ find_related_articles (some art) results article_id top_k,
      r.article_id ≠ article_id := by
    intro r hr
    rw [hout] at hr
    rcases dedupTake_subset top_k _ [] [] r hr with h | h
    · exact absurd h (List.not_mem_nil r)
    · have := (List.mem_filter.mp h).2
      simpa using this
  refine ⟨hself, ?_, ?_, ?_⟩
  · rw [hout]
    exact dedupTake_nodup top_k _ [] [] (by simp) List.Pairwise.nil
  · rw [hout]
    cases top_k with
    | zero => simpa using dedupTake_length_zero _ []
    | succ n =>
      exact (dedupTake_length_pos (n + 1)
        (results.filter (fun r => r.article_id ≠ article_id)) [] []
        (Nat.succ_pos n)).trans (Nat.le_max_left _ _)
  · intro r hr q hq hid
    have hr' := hr
    rw [hout] at hr'
    obtain ⟨_, hsc⟩ := dedupTake_max top_k _ [] [] hrel_sorted (by simp) r hr'
    refine hsc q ?_ hid
    refine List.mem_filter.mpr ⟨hq, ?_⟩
    have : q.article_id ≠ article_id := hid ▸ hself r hr
    simpa using this

/-- Candidate list fixture: two chunks of one article and one of another,
sorted by descending score. -/
def exRs6 : List SearchResult :=
  [SearchResult.mk "a2" "t2" "u2" "c2" 9, SearchResult.mk "a2" "t2" "u2" "c3" 7,
    SearchResult.mk "a3" "t3" "u3" "c4" 5]

/-- C6, witness: the amended properties evaluated at a concrete sorted
candidate list. -/
theorem find_related_props_w :
    (find_related_articles (some (Article.mk "a1" "T" none)) exRs6 "a1" 2).length
        ≤ max 2 1 ∧
    (SearchResult.mk "a2" "t2" "u2" "c2" 9).article_id ≠ "a1" := by
  have h := find_related_props (Article.mk "a1" "T" none) exRs6 "a1" 2 (by decide)
  exact ⟨h.2.2.1, h.1 (SearchResult.mk "a2" "t2" "u2" "c2" 9) (by decide)⟩

/-- Evidence fixture for the answer-path claims. -/
def exR7 : SearchResult := SearchResult.mk "a1" "T" "u" "c" 3

/-- C7, counterexample: when the completion provider fails,
`answer_question` does return an Answer whose text communicates the
failure — but its sources are the retrieved evidence items, not the
empty list: `generate_answer` swallows the error internally, so the
non-empty-results branch still attaches `results` as sources. -/
theorem answer_failure_sources_cex :
    (answer_question "q" [exR7] (fun _ => Except.error "provider down")).sources ≠ [] ∧
    (answer_question "q" [exR7] (fun _ => Except.error "provider down")).answer
      = "I'm sorry, but I encountered an error generating an answer: provider down" := by
  constructor
  · decide
  · rfl

/-- C7, amended: for every question with non-empty retrieved evidence,
if the single completion call fails, `answer_question` returns (does not
raise) an Answer whose text is the apologetic error message and whose
sources are exactly the retrieved evidence items. -/
theorem answer_failure_text_and_sources (question : String)
    (results : List SearchResult) (complete : String → Except String String)
    (e : String) (hne : results ≠ [])
    (hfail : complete (answer_prompt question results) = Except.error e) :
    (answer_question question results complete).answer
      = "I'm sorry, but I encountered an error generating an answer: " ++ e ∧
    (answer_question question results complete).sources = results := by
  unfold answer_question
  rw [if_neg hne]
  unfold generate_answer
  rw [hfail]
  exact ⟨rfl, rfl⟩

/-- C7, witness: the amended statement evaluated at one evidence item
and a failing provider. -/
theorem answer_failure_text_and_sources_w :
    (answer_question "q" [exR7] (fun _ => Except.error "boom")).answer
      = "I'm sorry, but I encountered an error generating an answer: " ++ "boom" ∧
    (answer_question "q" [exR7] (fun _ => Except.error "boom")).sources = [exR7] :=
  answer_failure_text_and_sources "q" [exR7] (fun _ => Except.error "boom") "boom"
    (by decide) rfl

/-- Two evidence chunks of the same article, for the C8 claims. -/
def exR8a : SearchResult := SearchResult.mk "a1" "T" "u" "c1" 9

def exR8b : SearchResult := SearchResult.mk "a1" "T" "u" "c2" 8

/-- C8, counterexample: the sources of a returned Answer are not
deduplicated by document id — two retrieved chunks of the same article
appear as two sources. -/
theorem answer_sources_dedup_cex :
    ¬ ((answer_question "q" [exR8a, exR8b] (fun _ => Except.ok "ans")).sources.Pairwise
        (fun a b => a.article_id ≠ b.article_id)) := by
  decide

/-- C8, amended: for every question with non-empty retrieved evidence,
the sources of the returned Answer are exactly the ranked evidence items
as retrieved, in order, with no deduplication (items sharing a document
id may repeat). -/
theorem answer_sources_are_results (question : String)
    (results : List SearchResult) (complete : String → Except String String)
    (hne : results ≠ []) :
    (answer_question question results complete).sources = results := by
  unfold answer_question
  rw [if_neg hne]

/-- C8, witness: the amended statement evaluated at a duplicate-id
evidence list. -/
theorem answer_sources_are_results_w :
    (answer_question "q" [exR8a, exR8b] (fun _ => Except.ok "ans")).sources
      = [exR8a, exR8b] :=
  answer_sources_are_results "q" [exR8a, exR8b] (fun _ => Except.ok "ans") (by decide)

/-- C9: for every question with zero retrieved evidence,
`answer_question` returns (without raising — the model is total) an
Answer whose sources are empty and whose text is the fixed non-empty
could-not-find message, for every completion provider (which is never
consulted). -/
theorem answer_no_evidence (question : String)
    (complete : String → Except String String) :
    (answer_question question [] complete).sources = [] ∧
    (answer_question question [] complete).answer ≠ "" := by
  unfold answer_question
  rw [if_pos rfl]
  refine ⟨rfl, ?_⟩
  show ("I couldn't find any relevant information in your saved articles to answer this question. Try addming more articles on this topic" : String) ≠ ""
  decide

/-- C10: for every topic with zero retrieved evidence,
`synthesize_topic` returns the fixed string and is independent of the
completion provider — the guard returns before any prompt is built or
any provider call is made. -/
theorem synthesize_no_evidence (topic : String)
    (complete : String → Except String String) :
    synthesize_topic topic [] complete = "No articles found on this topic." := by
  unfold synthesize_topic
  rw [if_pos rfl]

end Charlotte
